import Mathlib

/-!
Shallow embedding of the subtitle repositioning core of this repository
(`src/subtitle_backend/src/api/reposition_core.py` and
`src/subtitle_backend/src/core/reposition.py`).

Python strings are modelled as `List Char` (`Str`), Python `int` as `Int`,
the float likelihood scores as `ℚ` (they are only ever compared, and all
comparisons that occur between the literals 0.8/0.6/0.4/0.2/0.0 are exact
in binary floating point, so the rational model decides them identically),
and Python exceptions as `Except RepoError`.  File input/output at the
`process_subtitle` boundary is modelled by passing the file content in and
returning the written text out.
-/

set_option maxHeartbeats 1000000

abbrev Str := List Char

/-- Python's notion of (ASCII) whitespace used by `str.strip`, `str.split()`
and the `\s` regex class.  (Python also strips some non-ASCII Unicode
whitespace; none of the claims involve such characters.) -/
def isPyWs (c : Char) : Bool :=
  c = ' ' || c = '\t' || c = '\n' || c = '\r' || c = '\x0b' || c = '\x0c'

/-- Python `str.lstrip()` (whitespace on the left). -/
def lstrip (l : Str) : Str := l.dropWhile isPyWs

/-- Python `str.rstrip()` (whitespace on the right). -/
def rstrip (l : Str) : Str := (l.reverse.dropWhile isPyWs).reverse

/-- Python `str.strip()` (whitespace on both ends). -/
def pyStrip (l : Str) : Str := lstrip (rstrip l)

/-- Python `str.strip("﻿")`: byte-order marks removed from both ends. -/
def stripBom (l : Str) : Str :=
  ((l.dropWhile (· = '﻿')).reverse.dropWhile (· = '﻿')).reverse

/-- Python `needle in hay` on strings: substring containment. -/
def containsSub (needle : Str) : Str → Bool
  | [] => needle.isPrefixOf []
  | c :: t => needle.isPrefixOf (c :: t) || containsSub needle t

/-- Number of positions of `hay` at which `needle` occurs (overlapping
occurrences counted separately); used to state "no second occurrence". -/
def countSub (needle : Str) : Str → Nat
  | [] => if needle.isPrefixOf [] then 1 else 0
  | c :: t => (if needle.isPrefixOf (c :: t) then 1 else 0) + countSub needle t

/-- Split at the first occurrence of `sep`, as in Python `s.split(sep, 1)`
when `sep` occurs; `none` when it does not occur. -/
def splitFirst (sep : Str) : Str → Option (Str × Str)
  | [] => if sep = [] then some ([], []) else none
  | c :: t =>
    if sep.isPrefixOf (c :: t) then some ([], (c :: t).drop sep.length)
    else match splitFirst sep t with
      | some (a, b) => some (c :: a, b)
      | none => none

/-- Helper for `splitlines`: accumulates the current (reversed) line. -/
def splitlinesGo (cur : Str) : Str → List Str
  | [] => [cur.reverse]
  | c :: t =>
    if c = '\n' then
      match t with
      | [] => [cur.reverse]
      | _ :: _ => cur.reverse :: splitlinesGo [] t
    else splitlinesGo (c :: cur) t

/-- Python `str.splitlines()` for `\n`-separated text (no trailing empty
line for a terminal newline; the sources under test only produce and
consume `\n` line endings, the other Unicode terminators are not needed
by any claim). -/
def splitlines : Str → List Str
  | [] => []
  | c :: t => splitlinesGo [] (c :: t)

/-- Python `"\n".join(lines)`. -/
def joinLines (ls : List Str) : Str := List.intercalate ['\n'] ls

/-- Python `str.lower()` (ASCII case folding; the hint substrings and
format keywords compared by the source are all ASCII). -/
def toLowerStr (l : Str) : Str := l.map Char.toLower

/-- Python `str.upper()` (ASCII). -/
def toUpperStr (l : Str) : Str := l.map Char.toUpper

/-- Decimal value of a nonempty all-digit string. -/
def digitsValGo (acc : Nat) : Str → Option Nat
  | [] => some acc
  | c :: t => if c.isDigit then digitsValGo (acc * 10 + (c.toNat - '0'.toNat)) t else none

/-- Decimal value of a nonempty all-digit string, `none` otherwise. -/
def digitsVal? : Str → Option Nat
  | [] => none
  | c :: t => digitsValGo 0 (c :: t)

/-- Python `int(s)` for decimal literals: optional surrounding whitespace,
an optional sign, then at least one digit.  (Python additionally accepts
underscore digit separators and non-ASCII digits; no claim depends on
those.)  Returns `none` where Python raises `ValueError`. -/
def pyInt? (s : Str) : Option Int :=
  match pyStrip s with
  | '+' :: r => (digitsVal? r).map Int.ofNat
  | '-' :: r => (digitsVal? r).map (fun n => -(n : Int))
  | r => (digitsVal? r).map Int.ofNat

/-- Decimal digits of a natural number. -/
def natRepr (n : Nat) : Str := (toString n).data

/-- Python `f"{n:0w}"` zero padding of an integer to width `w` (zeros go
between the sign and the digits). -/
def intPadZero (w : Nat) (n : Int) : Str :=
  if n < 0 then '-' :: (List.replicate (w - 1 - (natRepr (-n).toNat).length) '0' ++ natRepr (-n).toNat)
  else List.replicate (w - (natRepr n.toNat).length) '0' ++ natRepr n.toNat

/-- The error kinds surfaced by the core (both are `ValueError` in the
Python source, distinguished by their message). -/
inductive RepoError where
  | malformedTimecode
  | unsupportedFormat
deriving DecidableEq, Repr

/-- Timecode from `reposition_core.py` (`@dataclass class Timecode`);
fields are Python ints. -/
structure Timecode where
  h : Int
  m : Int
  s : Int
  ms : Int
deriving DecidableEq, Repr

/-- `Timecode.to_ms` from the source. -/
def Timecode.to_ms (t : Timecode) : Int :=
  ((t.h * 60 + t.m) * 60 + t.s) * 1000 + t.ms

/-- `Timecode.from_ms` from the source.  Python `divmod` is floor
division; Lean's `Int` `/` and `%` are Euclidean, which coincides with
floor division for the positive divisors 1000, 3600 and 60 used here. -/
def Timecode.from_ms (ms : Int) : Timecode :=
  let total_seconds := ms / 1000
  let ms_part := ms % 1000
  let h := total_seconds / 3600
  let rem := total_seconds % 3600
  let m := rem / 60
  let s := rem % 60
  ⟨h, m, s, ms_part⟩

/-- `Timecode.__str__` from the source: `HH:MM:SS,mmm` with zero padding. -/
def Timecode.str (t : Timecode) : Str :=
  intPadZero 2 t.h ++ ':' :: intPadZero 2 t.m ++ ':' :: intPadZero 2 t.s
    ++ ',' :: intPadZero 3 t.ms

/-- C7: for every non-negative integer millisecond count, `from_ms` followed
by `to_ms` is the identity, and `from_ms` yields canonical fields:
milliseconds in [0,999], seconds in [0,59], minutes in [0,59], hours
non-negative and unbounded. -/
theorem c7_timecode_roundtrip (ms : Int) (h : 0 ≤ ms) :
    (Timecode.from_ms ms).to_ms = ms ∧
    0 ≤ (Timecode.from_ms ms).ms ∧ (Timecode.from_ms ms).ms ≤ 999 ∧
    0 ≤ (Timecode.from_ms ms).s ∧ (Timecode.from_ms ms).s ≤ 59 ∧
    0 ≤ (Timecode.from_ms ms).m ∧ (Timecode.from_ms ms).m ≤ 59 ∧
    0 ≤ (Timecode.from_ms ms).h := by
  simp only [Timecode.from_ms, Timecode.to_ms]
  omega

/-- C7 witness: the round trip and canonicity at the concrete input
3723456 ms (1 h 2 min 3 s 456 ms). -/
theorem c7_timecode_roundtrip_witness :
    (0 : Int) ≤ 3723456 ∧ (Timecode.from_ms 3723456).to_ms = 3723456 := by
  refine ⟨by norm_num, (c7_timecode_roundtrip 3723456 (by norm_num)).1⟩

/-- The tag `\an8` searched for by `move_ass_line_to_top` (`r"\an8"`). -/
def an8Seq : Str := ['\\', 'a', 'n', '8']

/-- The tag `\an2` searched for by `move_ass_line_to_bottom`. -/
def an2Seq : Str := ['\\', 'a', 'n', '2']

/-- The `{\an8}` override block inserted by the source (`"{" + r"\an8" + "}"`). -/
def an8Block : Str := ['\x7b', '\\', 'a', 'n', '8', '\x7d']

/-- The `{\an2}` override block inserted by the source. -/
def an2Block : Str := ['\x7b', '\\', 'a', 'n', '2', '\x7d']

/-- `move_ass_line_to_top` from the source: if the text already contains
`\an8` (and starts with `{`) it is returned unchanged, otherwise a new
`{\an8}` block is prepended. -/
def move_ass_line_to_top (text : Str) : Str :=
  if ['\x7b'].isPrefixOf text then
    if containsSub an8Seq text then text else an8Block ++ text
  else an8Block ++ text

/-- `move_ass_line_to_bottom` from the source (same shape with `\an2`). -/
def move_ass_line_to_bottom (text : Str) : Str :=
  if ['\x7b'].isPrefixOf text then
    if containsSub an2Seq text then text else an2Block ++ text
  else an2Block ++ text

/-- Match of `ASS_EVENT_RE` = `^(Dialogue|Comment):\s*(?P<rest>.*)$`
(case-insensitive): returns whether the keyword was `Dialogue` and the
`rest` group (the greedy `\s*` eats the whitespace after the colon). -/
def matchAssEvent (line : Str) : Option (Bool × Str) :=
  if ("dialogue:".data).isPrefixOf (toLowerStr line) then
    some (true, (line.drop 9).dropWhile isPyWs)
  else if ("comment:".data).isPrefixOf (toLowerStr line) then
    some (false, (line.drop 8).dropWhile isPyWs)
  else none

/-- Helper for `ASS_FIELDS_SPLIT.split(rest, maxsplit=9)`: split on commas
not preceded by a backslash (`(?<!\\),`), with a split budget. -/
def splitAssFieldsGo (budget : Nat) (prev : Option Char) (cur : Str) : Str → List Str
  | [] => [cur.reverse]
  | c :: t =>
    if c = ',' ∧ prev ≠ some '\\' ∧ budget ≠ 0 then
      cur.reverse :: splitAssFieldsGo (budget - 1) (some ',') [] t
    else splitAssFieldsGo budget (some c) (c :: cur) t

/-- `re.split` on unescaped commas with a maximal number of splits. -/
def splitAssFields (budget : Nat) (s : Str) : List Str :=
  splitAssFieldsGo budget none [] s

/-- The per-event-line rewrite inside the `[Events]` section of
`reposition_ass_ssa`: Dialogue/Comment lines with at least 10 fields are
re-emitted as `Dialogue: ` plus the 9 fields plus the rewritten text;
everything else passes through. -/
def assRewriteEventLine (place_top : Bool) (line : Str) : Str :=
  match matchAssEvent line with
  | none => line
  | some (_, rest) =>
    let parts := splitAssFields 9 rest
    if parts.length ≥ 10 then
      "Dialogue: ".data ++ List.intercalate [','] parts.dropLast ++
        ',' :: (if place_top then move_ass_line_to_top (parts.getLastD [])
                else move_ass_line_to_bottom (parts.getLastD []))
    else line

/-- Whether a line is the `[Events]` section header
(`line.strip().lower().startswith("[events]")`). -/
def isEventsHeader (line : Str) : Bool :=
  ("[events]".data).isPrefixOf (toLowerStr (pyStrip line))

/-- The line loop of `reposition_ass_ssa`, carrying the `in_events` flag. -/
def assGo (place_top : Bool) : Bool → List Str → List Str
  | _, [] => []
  | inEvents, l :: ls =>
    if isEventsHeader l then l :: assGo place_top true ls
    else if inEvents then assRewriteEventLine place_top l :: assGo place_top true ls
    else l :: assGo place_top false ls

/-- `reposition_ass_ssa` from the source. -/
def reposition_ass_ssa (content : Str) (place_top : Bool) : Str :=
  joinLines (assGo place_top false (splitlines content))

/-- `os.path.basename` for POSIX paths: the part after the last `/`. -/
def pyBasename (p : Str) : Str := (p.reverse.takeWhile (· ≠ '/')).reverse

/-- `detect_burnin_regions` from the source: a filename-hint heuristic
returning (side, likelihood) pairs. -/
def detect_burnin_regions (video_path : Str) : List (Str × ℚ) :=
  let name := toLowerStr (pyBasename video_path)
  if containsSub "upper".data name || containsSub "top".data name then
    [("top".data, 0.8), ("bottom".data, 0.2)]
  else if containsSub "lower".data name || containsSub "bottom".data name then
    [("bottom".data, 0.8), ("top".data, 0.2)]
  else [("bottom".data, 0.6), ("top".data, 0.4)]

/-- `next((s for side, s in regions if side == sd), 0.0)` from
`decide_subtitle_placement`: the score of the first matching side, 0
when absent. -/
def scoreFor (sd : Str) : List (Str × ℚ) → ℚ
  | [] => 0
  | r :: rs => if r.1 = sd then r.2 else scoreFor sd rs

/-- The comparison at the heart of `decide_subtitle_placement`
(`top_score < bottom_score`), exposed on a region list. -/
def placementFromRegions (regions : List (Str × ℚ)) : Bool :=
  decide (scoreFor "top".data regions < scoreFor "bottom".data regions)

/-- The placement decider applied to a top score and a bottom score
(the decider's contract is a side-to-score mapping). -/
def decideFromScores (top bottom : ℚ) : Bool :=
  placementFromRegions [("top".data, top), ("bottom".data, bottom)]

/-- `decide_subtitle_placement` from the source: `true` = place on top. -/
def decide_subtitle_placement (video_path : Str) : Bool :=
  placementFromRegions (detect_burnin_regions video_path)

/-- `SRTItem` from the source (`end` is a Lean keyword, hence `end_`). -/
structure SRTItem where
  index : Int
  start : Timecode
  end_ : Timecode
  text_lines : List Str
deriving DecidableEq, Repr

/-- `re.split(r"[:,\.]", s)`: split at every colon, comma or period. -/
def splitTCGo (cur : Str) : Str → List Str
  | [] => [cur.reverse]
  | c :: t =>
    if c = ':' ∨ c = ',' ∨ c = '.' then cur.reverse :: splitTCGo [] t
    else splitTCGo (c :: cur) t

/-- `re.split(r"[:,\.]", s)` from `_parse_timecode_fragment`. -/
def splitTC (s : Str) : List Str := splitTCGo [] s

/-- `_parse_timecode_fragment` from the source: strip, split on `:,.`,
require exactly 4 parts, convert each with `int()`; any failure is the
`ValueError` modelled as `malformedTimecode`. -/
def parse_timecode_fragment (f : Str) : Except RepoError Timecode :=
  match splitTC (pyStrip f) with
  | [a, b, c, d] =>
    match pyInt? a, pyInt? b, pyInt? c, pyInt? d with
    | some h, some m, some s, some ms => .ok ⟨h, m, s, ms⟩
    | _, _, _, _ => .error .malformedTimecode
  | _ => .error .malformedTimecode

/-- Index (from the end) of the last newline of a run known to contain one. -/
def lastNlIdx (l : Str) : Nat := l.length - 1 - l.reverse.findIdx (· = '\n')

/-- Helper for `re.split(r"\n\s*\n", content)`: a separator starts at a
newline whose following whitespace run contains another newline; the
greedy `\s*` makes the match end at the last newline of that run. -/
def srtBlocksGo (cur : Str) : Str → List Str
  | [] => [cur.reverse]
  | c :: t =>
    if c = '\n' then
      let run := t.takeWhile isPyWs
      if run.contains '\n' then
        cur.reverse :: srtBlocksGo [] (t.drop (lastNlIdx run + 1))
      else srtBlocksGo (c :: cur) t
    else srtBlocksGo (c :: cur) t
termination_by s => s.length
decreasing_by
  · simp only [List.length_drop, List.length_cons]; omega
  · simp only [List.length_cons]; omega
  · simp only [List.length_cons]; omega

/-- `re.split(r"\n\s*\n", content.strip())` from `parse_srt`. -/
def srtBlocks (content : Str) : List Str := srtBlocksGo [] (pyStrip content)

/-- One iteration of the block loop of `parse_srt`: `nItems` is the number
of items collected so far (used when the index line is absent); returns
`none` for a silently skipped block. -/
def parse_srt_block (nItems : Nat) (block : Str) : Except RepoError (Option SRTItem) :=
  match (splitlines block).map stripBom with
  | [] => .ok none
  | l0 :: rest =>
    let idxAndRest : Int × List Str :=
      match pyInt? (pyStrip l0) with
      | some v => (v, rest)
      | none => ((nItems : Int) + 1, l0 :: rest)
    match idxAndRest.2 with
    | [] => .ok none
    | tl :: txt =>
      let timing := pyStrip tl
      if containsSub "-->".data timing then
        match splitFirst "-->".data timing with
        | some (a, b) =>
          match parse_timecode_fragment (pyStrip a) with
          | .error e => .error e
          | .ok st =>
            match parse_timecode_fragment (pyStrip b) with
            | .error e => .error e
            | .ok en => .ok (some ⟨idxAndRest.1, st, en, txt⟩)
        | none => .ok none
      else .ok none

/-- The block fold of `parse_srt` (accumulator kept reversed). -/
def parse_srt_go (acc : List SRTItem) : List Str → Except RepoError (List SRTItem)
  | [] => .ok acc.reverse
  | b :: bs =>
    match parse_srt_block acc.length b with
    | .error e => .error e
    | .ok none => parse_srt_go acc bs
    | .ok (some it) => parse_srt_go (it :: acc) bs

/-- `parse_srt` from the source. -/
def parse_srt (content : Str) : Except RepoError (List SRTItem) :=
  parse_srt_go [] (srtBlocks content)

/-- `format_srt` from the source: renumber from 1, emit timing and text
lines (one empty line when the cue has none), blank separators, then
strip the whole and append one newline. -/
def format_srt (items : List SRTItem) : Str :=
  let outLines := (items.enum.map (fun p =>
    natRepr (p.1 + 1) :: (p.2.start.str ++ " --> ".data ++ p.2.end_.str) ::
      ((if p.2.text_lines = [] then [([] : Str)] else p.2.text_lines) ++ [([] : Str)]))).flatten
  pyStrip (joinLines outLines) ++ ['\n']

/-- The per-line SRT adjustment inside `process_subtitle`: prepend the
`{\an8}` (top) or `{\an2}` (bottom) tag unless the stripped line already
starts with `{\an`. -/
def srt_adjust_line (place_top : Bool) (ln : Str) : Str :=
  if ['\x7b', '\\', 'a', 'n'].isPrefixOf (pyStrip ln) then ln
  else (if place_top then an8Block else an2Block) ++ ln

/-- The SRT adjustment loop of `process_subtitle`: every item's lines get
the same single placement. -/
def srt_adjust_items (place_top : Bool) (items : List SRTItem) : List SRTItem :=
  items.map (fun it => { it with text_lines := it.text_lines.map (srt_adjust_line place_top) })

/-- Python `str.split()` (no argument): whitespace-run tokenization. -/
def pySplitWsGo (cur : Str) : Str → List Str
  | [] => if cur = [] then [] else [cur.reverse]
  | c :: t =>
    if isPyWs c then
      if cur = [] then pySplitWsGo [] t else cur.reverse :: pySplitWsGo [] t
    else pySplitWsGo (c :: cur) t

/-- Python `str.split()` (no argument). -/
def pySplitWs (s : Str) : List Str := pySplitWsGo [] s

/-- The cue-settings token computation of `reposition_vtt_lines`: drop
every token starting with `line:`, then append `line:0` (top) or
`line:90` (bottom). -/
def vttSettingsTokens (place_top : Bool) (settings : Str) : List Str :=
  let toks := if settings = [] then [] else pySplitWs settings
  toks.filter (fun tok => !(("line:".data).isPrefixOf tok)) ++
    [if place_top then "line:0".data else "line:90".data]

/-- The cue-timing-line rewrite of `reposition_vtt_lines`. -/
def vttTimingRewrite (place_top : Bool) (line : Str) : Str :=
  match splitFirst "-->".data line with
  | none => line
  | some (p0, p1) =>
    let left := pyStrip p0
    let right := pyStrip p1
    let ts : Str × Str :=
      if containsSub [' '] right then
        match splitFirst [' '] right with
        | some (a, b) => (a, b)
        | none => (right, [])
      else (right, [])
    let settings := List.intercalate [' '] (vttSettingsTokens place_top ts.2)
    rstrip (left ++ " --> ".data ++ ts.1 ++ ' ' :: settings)

/-- The inner `while` of `reposition_vtt_lines`: copy the text lines
following a timing line up to (excluding) the first blank line. -/
def copyCueText : List Str → List Str × List Str
  | [] => ([], [])
  | l :: ls =>
    if pyStrip l = [] then ([], l :: ls)
    else
      match copyCueText ls with
      | (a, b) => (l :: a, b)

theorem copyCueText_snd_length (ls : List Str) : (copyCueText ls).2.length ≤ ls.length := by
  induction ls with
  | nil => simp [copyCueText]
  | cons l ls ih =>
    simp only [copyCueText]
    split
    · simp
    · cases h : copyCueText ls with
      | mk a b => simp_all; omega

/-- `reposition_vtt_lines` from the source: rewrite timing lines, copy the
cue text verbatim, always emit one blank separator, pass other lines
through. -/
def vttGo (place_top : Bool) : List Str → List Str
  | [] => []
  | l :: ls =>
    if containsSub "-->".data l then
      vttTimingRewrite place_top l ::
        ((copyCueText ls).1 ++ ([] : Str) :: vttGo place_top (copyCueText ls).2)
    else l :: vttGo place_top ls
termination_by ls => ls.length
decreasing_by
  all_goals simp only [List.length_cons]
  · exact Nat.lt_succ_of_le (copyCueText_snd_length _)
  · omega

/-- `reposition_vtt_lines` on a list of lines. -/
def reposition_vtt_lines (lines : List Str) (place_top : Bool) : List Str :=
  vttGo place_top lines

/-- `reposition_vtt` from the source: keep a leading `WEBVTT` header out of
the body processing. -/
def reposition_vtt (content : Str) (place_top : Bool) : Str :=
  match splitlines content with
  | [] => joinLines (reposition_vtt_lines [] place_top)
  | l0 :: body =>
    if toUpperStr (pyStrip l0) = "WEBVTT".data then
      joinLines (l0 :: reposition_vtt_lines body place_top)
    else joinLines (reposition_vtt_lines (l0 :: body) place_top)

/-- Index of the last occurrence of a character, as Python `str.rfind`
(`none` for Python's -1). -/
def rIdxOf (c : Char) (l : Str) : Option Nat :=
  (l.reverse.findIdx? (· = c)).map (fun i => l.length - 1 - i)

/-- `os.path.splitext(p)[1]` for POSIX paths: the extension starting at the
last dot, empty when the dot is missing, before the last slash, or only
preceded by dots within the basename (CPython's leading-dot rule). -/
def splitext_ext (p : Str) : Str :=
  let sepIdx : Int := match rIdxOf '/' p with | some i => (i : Int) | none => -1
  let dotIdx : Int := match rIdxOf '.' p with | some i => (i : Int) | none => -1
  if sepIdx < dotIdx then
    if (List.range p.length).any (fun k =>
        decide (sepIdx < (k : Int)) && decide ((k : Int) < dotIdx) && (p.getD k '.' != '.')) then
      p.drop dotIdx.toNat
    else []
  else []

/-- `process_subtitle` from the source, with the file boundary made
explicit: the subtitle file's text comes in as `content` and the text the
source would write to the temp file is returned (`ValueError` for an
unsupported extension is `unsupportedFormat`). -/
def process_subtitle (video_path subtitle_path content : Str) : Except RepoError Str :=
  let ext_lower := toLowerStr (splitext_ext subtitle_path)
  let place_top := decide_subtitle_placement video_path
  if ext_lower = ".srt".data then
    (parse_srt content).map (fun items => format_srt (srt_adjust_items place_top items))
  else if ext_lower = ".ass".data ∨ ext_lower = ".ssa".data then
    .ok (reposition_ass_ssa content place_top)
  else if ext_lower = ".vtt".data then
    .ok (reposition_vtt content place_top)
  else .error .unsupportedFormat

/-- `reposition_subtitles_for_video` from `src/core/reposition.py`: the
placeholder that alternates `top`/`bottom` by cue index.  Start/end times
are only carried through, so they stay polymorphic. -/
def reposition_subtitles_for_video {α β : Type} (_video_path : Str)
    (subtitles : List (α × β × Str)) : List (α × β × Str × Str) :=
  subtitles.enum.map (fun p =>
    (p.2.1, p.2.2.1, p.2.2.2, if p.1 % 2 = 0 then "top".data else "bottom".data))

/-- C5: over likelihood scores in [0,1], the decider chooses Top exactly when
the top score is strictly lower than the bottom score; ties give Bottom, and
the three concrete probes from the spec evaluate as stated. -/
theorem c5_decide_strictly_lower :
    (∀ top bottom : ℚ, 0 ≤ top → top ≤ 1 → 0 ≤ bottom → bottom ≤ 1 →
      (decideFromScores top bottom = true ↔ top < bottom)) ∧
    decideFromScores 0.8 0.2 = false ∧
    decideFromScores 0.2 0.8 = true ∧
    decideFromScores 0.5 0.5 = false := by
  refine ⟨fun t b _ _ _ _ => ?_, ?_, ?_, ?_⟩
  · simp [decideFromScores, placementFromRegions, scoreFor]
  · simp [decideFromScores, placementFromRegions, scoreFor]
    norm_num
  · simp [decideFromScores, placementFromRegions, scoreFor]
    norm_num
  · simp [decideFromScores, placementFromRegions, scoreFor]

/-- C5 witness: the decider instantiated at the in-range scores 0.3 and 0.9. -/
theorem c5_decide_strictly_lower_witness :
    ((0 : ℚ) ≤ 0.3 ∧ (0.3 : ℚ) ≤ 1 ∧ (0 : ℚ) ≤ 0.9 ∧ (0.9 : ℚ) ≤ 1) ∧
      decideFromScores 0.3 0.9 = true :=
  ⟨⟨by norm_num, by norm_num, by norm_num, by norm_num⟩,
    (c5_decide_strictly_lower.1 0.3 0.9 (by norm_num) (by norm_num) (by norm_num)
      (by norm_num)).mpr (by norm_num)⟩

/-- C10: the placement decision is Bottom (`false`) exactly when the
lowercased basename of the video path contains `upper` or `top`; every
other basename (including `lower`/`bottom` hints and no hint) gives Top. -/
theorem c10_decide_placement_iff (path : Str) :
    decide_subtitle_placement path = false ↔
      (containsSub "upper".data (toLowerStr (pyBasename path)) = true ∨
       containsSub "top".data (toLowerStr (pyBasename path)) = true) := by
  unfold decide_subtitle_placement detect_burnin_regions
  by_cases h1 : (containsSub "upper".data (toLowerStr (pyBasename path)) ||
      containsSub "top".data (toLowerStr (pyBasename path))) = true
  · rw [if_pos h1]
    simp only [Bool.or_eq_true] at h1
    simp [placementFromRegions, scoreFor, h1]
    norm_num
  · rw [if_neg h1]
    simp only [Bool.or_eq_true] at h1
    push_neg at h1
    by_cases h2 : (containsSub "lower".data (toLowerStr (pyBasename path)) ||
        containsSub "bottom".data (toLowerStr (pyBasename path))) = true
    · rw [if_pos h2]
      simp [placementFromRegions, scoreFor, h1]
      norm_num
    · rw [if_neg h2]
      simp [placementFromRegions, scoreFor, h1]
      norm_num

/-- C1 counterexample: the repositioning pass of
`src/core/reposition.py` (`reposition_subtitles_for_video`) gives the two
cues of one subtitle input different positioning directives (`top` for the
first, `bottom` for the second), so the claim that every pair of cues of a
file receives the same directive fails on it. -/
theorem c1_counterexample :
    reposition_subtitles_for_video (α := Nat) (β := Nat) "v.mp4".data
        [(0, 1, "a".data), (1, 2, "b".data)] =
      [(0, 1, "a".data, "top".data), (1, 2, "b".data, "bottom".data)] ∧
    "top".data ≠ "bottom".data := by
  decide

/-- C1 amended: in the `process_subtitle` pipeline the placement decision is
computed once per invocation and the very same placement is applied to every
cue (the adjustment is a `map` of the single per-file decision over the
items, so any two cues are rewritten with the same side); the placeholder
`reposition_subtitles_for_video`, however, alternates the directive by cue
index: `top` for even positions, `bottom` for odd ones. -/
theorem c1_amended :
    (∀ (place : Bool) (items : List SRTItem) (i : Nat),
      (srt_adjust_items place items)[i]? = (items[i]?).map (fun it =>
        { it with text_lines := it.text_lines.map (srt_adjust_line place) })) ∧
    (∀ video content, process_subtitle video "a.srt".data content =
      (parse_srt content).map (fun items =>
        format_srt (srt_adjust_items (decide_subtitle_placement video) items))) ∧
    (∀ (video : Str) (subs : List (ℚ × ℚ × Str)) (i : Nat),
      (reposition_subtitles_for_video video subs)[i]? =
        (subs[i]?).map (fun c =>
          (c.1, c.2.1, c.2.2, if i % 2 = 0 then "top".data else "bottom".data))) := by
  refine ⟨fun place items i => ?_, fun video content => ?_, fun video subs i => ?_⟩
  · simp [srt_adjust_items]
  · unfold process_subtitle
    rw [if_pos (by decide)]
  · simp [reposition_subtitles_for_video, List.getElem?_enum, Option.map_map]
    rfl

theorem countSub_eq_zero (n : Str) : ∀ l : Str, containsSub n l = false → countSub n l = 0 := by
  intro l
  induction l with
  | nil =>
    intro h
    simp only [containsSub] at h
    simp [countSub, h]
  | cons c t ih =>
    intro h
    simp only [containsSub, Bool.or_eq_false_iff] at h
    simp [countSub, h.1, ih h.2]

theorem containsSub_an2_of_an8Block (t : Str) (h : containsSub an2Seq t = false) :
    containsSub an2Seq (an8Block ++ t) = false := by
  simp only [an8Block, an2Seq, List.cons_append, List.nil_append] at h ⊢
  simp [containsSub, List.isPrefixOf, h]

theorem containsSub_an8_of_an2Block (t : Str) (h : containsSub an8Seq t = false) :
    containsSub an8Seq (an2Block ++ t) = false := by
  simp only [an2Block, an8Seq, List.cons_append, List.nil_append] at h ⊢
  simp [containsSub, List.isPrefixOf, h]

theorem containsSub_an2Block_of_an8Block (t : Str) (h : containsSub an2Block t = false) :
    containsSub an2Block (an8Block ++ t) = false := by
  simp only [an8Block, an2Block, List.cons_append, List.nil_append] at h ⊢
  simp [containsSub, List.isPrefixOf, h]

theorem containsSub_an8Block_of_an2Block (t : Str) (h : containsSub an8Block t = false) :
    containsSub an8Block (an2Block ++ t) = false := by
  simp only [an2Block, an8Block, List.cons_append, List.nil_append] at h ⊢
  simp [containsSub, List.isPrefixOf, h]

theorem countSub_an8_an8Block_append (t : Str) (h : containsSub an8Seq t = false) :
    countSub an8Seq (an8Block ++ t) = 1 := by
  have h0 : countSub an8Seq t = 0 := countSub_eq_zero _ _ h
  simp only [an8Block, an8Seq, List.cons_append, List.nil_append] at h0 ⊢
  simp [countSub, List.isPrefixOf, h0]

theorem countSub_an2_an2Block_append (t : Str) (h : containsSub an2Seq t = false) :
    countSub an2Seq (an2Block ++ t) = 1 := by
  have h0 : countSub an2Seq t = 0 := countSub_eq_zero _ _ h
  simp only [an2Block, an2Seq, List.cons_append, List.nil_append] at h0 ⊢
  simp [countSub, List.isPrefixOf, h0]

/-- C2 counterexample: on the text `{\i1}hi`, which starts with a `{...}`
override block and contains no `\an8`, Top placement prepends a brand-new
`{\an8}` block (`{\an8}{\i1}hi`) instead of merging `\an8` into the
existing block before its closing brace (`{\i1\an8}hi`). -/
theorem c2_counterexample :
    move_ass_line_to_top (['\x7b', '\\', 'i', '1', '\x7d'] ++ "hi".data) =
      an8Block ++ ['\x7b', '\\', 'i', '1', '\x7d'] ++ "hi".data ∧
    move_ass_line_to_top (['\x7b', '\\', 'i', '1', '\x7d'] ++ "hi".data) ≠
      ['\x7b', '\\', 'i', '1'] ++ an8Seq ++ '\x7d' :: "hi".data := by
  decide

/-- C2 amended: for ASS text that already starts with a `{...}` override
block, Top placement prepends one new `{\an8}` block in front of the
existing text when `\an8` is absent (never merging into the existing
block), leaving exactly one occurrence of `\an8`, and leaves text that
already contains `\an8` unchanged; identically for Bottom with `\an2`. -/
theorem c2_amended :
    (∀ t : Str, ['\x7b'].isPrefixOf t = true → containsSub an8Seq t = false →
      move_ass_line_to_top t = an8Block ++ t ∧
      countSub an8Seq (move_ass_line_to_top t) = 1) ∧
    (∀ t : Str, ['\x7b'].isPrefixOf t = true → containsSub an8Seq t = true →
      move_ass_line_to_top t = t) ∧
    (∀ t : Str, ['\x7b'].isPrefixOf t = true → containsSub an2Seq t = false →
      move_ass_line_to_bottom t = an2Block ++ t ∧
      countSub an2Seq (move_ass_line_to_bottom t) = 1) ∧
    (∀ t : Str, ['\x7b'].isPrefixOf t = true → containsSub an2Seq t = true →
      move_ass_line_to_bottom t = t) := by
  refine ⟨fun t hp hn => ?_, fun t hp hy => ?_, fun t hp hn => ?_, fun t hp hy => ?_⟩
  · have he : move_ass_line_to_top t = an8Block ++ t := by
      simp [move_ass_line_to_top, hp, hn]
    exact ⟨he, he ▸ countSub_an8_an8Block_append t hn⟩
  · simp [move_ass_line_to_top, hp, hy]
  · have he : move_ass_line_to_bottom t = an2Block ++ t := by
      simp [move_ass_line_to_bottom, hp, hn]
    exact ⟨he, he ▸ countSub_an2_an2Block_append t hn⟩
  · simp [move_ass_line_to_bottom, hp, hy]

/-- C2 witness: the amended behaviour at the concrete text `{\i1}hi`. -/
theorem c2_amended_witness :
    (['\x7b'].isPrefixOf (['\x7b', '\\', 'i', '1', '\x7d'] ++ "hi".data) = true ∧
     containsSub an8Seq (['\x7b', '\\', 'i', '1', '\x7d'] ++ "hi".data) = false) ∧
    (move_ass_line_to_top (['\x7b', '\\', 'i', '1', '\x7d'] ++ "hi".data) =
      an8Block ++ (['\x7b', '\\', 'i', '1', '\x7d'] ++ "hi".data) ∧
     countSub an8Seq (move_ass_line_to_top (['\x7b', '\\', 'i', '1', '\x7d'] ++ "hi".data)) = 1) :=
  ⟨⟨by decide, by decide⟩, c2_amended.1 _ (by decide) (by decide)⟩

/-- C3 counterexample: a single Top pass on the ASS text `{\an2}hello`
produces `{\an8}{\an2}hello`, which carries the Top directive `\an8` and
the Bottom directive `\an2` simultaneously. -/
theorem c3_counterexample :
    move_ass_line_to_top (an2Block ++ "hello".data) = an8Block ++ an2Block ++ "hello".data ∧
    containsSub an2Seq (move_ass_line_to_top (an2Block ++ "hello".data)) = true ∧
    containsSub an8Seq (move_ass_line_to_top (an2Block ++ "hello".data)) = true := by
  decide

/-- C3 amended: after a single pass the rewritten cue carries no opposite
directive provided the input cue did not already contain it: a Top ASS
rewrite introduces no `\an2` (and dually), the VTT settings rewrite is
unconditionally exclusive (every `line:` token is removed before the single
new one is appended, so Top output never has a `line:90` token and Bottom
output never has a `line:0` token), and the SRT line injection introduces
no opposite `{\an2}`/`{\an8}` tag. -/
theorem c3_amended :
    (∀ t : Str, containsSub an2Seq t = false →
      containsSub an2Seq (move_ass_line_to_top t) = false) ∧
    (∀ t : Str, containsSub an8Seq t = false →
      containsSub an8Seq (move_ass_line_to_bottom t) = false) ∧
    (∀ s : Str, "line:90".data ∉ vttSettingsTokens true s) ∧
    (∀ s : Str, "line:0".data ∉ vttSettingsTokens false s) ∧
    (∀ ln : Str, containsSub an2Block ln = false →
      containsSub an2Block (srt_adjust_line true ln) = false) ∧
    (∀ ln : Str, containsSub an8Block ln = false →
      containsSub an8Block (srt_adjust_line false ln) = false) := by
  refine ⟨fun t h => ?_, fun t h => ?_, fun s hs => ?_, fun s hs => ?_,
    fun ln h => ?_, fun ln h => ?_⟩
  · unfold move_ass_line_to_top
    split
    · split
      · exact h
      · exact containsSub_an2_of_an8Block t h
    · exact containsSub_an2_of_an8Block t h
  · unfold move_ass_line_to_bottom
    split
    · split
      · exact h
      · exact containsSub_an8_of_an2Block t h
    · exact containsSub_an8_of_an2Block t h
  · simp only [vttSettingsTokens, List.mem_append, List.mem_filter, List.mem_singleton] at hs
    rcases hs with ⟨_, hf⟩ | heq
    · exact absurd hf (by decide)
    · exact absurd heq (by decide)
  · simp only [vttSettingsTokens, List.mem_append, List.mem_filter, List.mem_singleton] at hs
    rcases hs with ⟨_, hf⟩ | heq
    · exact absurd hf (by decide)
    · exact absurd heq (by decide)
  · unfold srt_adjust_line
    split
    · exact h
    · exact containsSub_an2Block_of_an8Block ln h
  · unfold srt_adjust_line
    split
    · exact h
    · exact containsSub_an8Block_of_an2Block ln h

/-- C3 witness: the amended exclusivity at the concrete ASS text `Hello`. -/
theorem c3_amended_witness :
    containsSub an2Seq "Hello".data = false ∧
    containsSub an2Seq (move_ass_line_to_top "Hello".data) = false :=
  ⟨by decide, c3_amended.1 "Hello".data (by decide)⟩

theorem intercalate_cons_cons (s x y : Str) (a : List Str) :
    List.intercalate s (x :: y :: a) = x ++ s ++ List.intercalate s (y :: a) := by
  simp [List.intercalate, List.intersperse]

theorem intercalate_singleton (s x : Str) : List.intercalate s [x] = x := by
  simp [List.intercalate]

theorem pySplitWsGo_wsfree_append (t : Str) (ht : ∀ c ∈ t, isPyWs c = false) :
    ∀ (cur rest : Str), pySplitWsGo cur (t ++ rest) = pySplitWsGo (t.reverse ++ cur) rest := by
  induction t with
  | nil => intro cur rest; simp
  | cons c t ih =>
    intro cur rest
    have hc : isPyWs c = false := ht c (List.mem_cons_self _ _)
    have ht' : ∀ x ∈ t, isPyWs x = false := fun x hx => ht x (List.mem_cons_of_mem _ hx)
    simp only [List.cons_append, pySplitWsGo, hc, Bool.false_eq_true, if_false, List.append_eq]
    rw [ih ht' (c :: cur) rest]
    simp [List.append_assoc]

theorem pySplitWs_intercalate (toks : List Str)
    (h : ∀ tok ∈ toks, tok ≠ [] ∧ ∀ c ∈ tok, isPyWs c = false) :
    pySplitWs (List.intercalate [' '] toks) = toks := by
  induction toks with
  | nil => simp [pySplitWs, pySplitWsGo, List.intercalate]
  | cons t ts ih =>
    have ht := h t (List.mem_cons_self _ _)
    have hts : ∀ tok ∈ ts, tok ≠ [] ∧ ∀ c ∈ tok, isPyWs c = false :=
      fun tok htok => h tok (List.mem_cons_of_mem _ htok)
    cases ts with
    | nil =>
      rw [intercalate_singleton]
      unfold pySplitWs
      have := pySplitWsGo_wsfree_append t ht.2 [] []
      rw [List.append_nil] at this
      rw [this]
      have hrev : t.reverse ++ [] ≠ [] := by simp [ht.1]
      simp [pySplitWsGo, hrev]
      exact ht.1
    | cons t' ts' =>
      rw [intercalate_cons_cons, List.append_assoc]
      unfold pySplitWs
      rw [pySplitWsGo_wsfree_append t ht.2 [] _]
      have hrev : t.reverse ++ [] ≠ [] := by simp [ht.1]
      simp only [pySplitWsGo, List.singleton_append, show isPyWs ' ' = true from rfl, if_true]
      rw [if_neg hrev]
      simp only [List.append_nil, List.reverse_reverse]
      exact congrArg (t :: ·) (ih hts)

theorem pySplitWsGo_tokens (s : Str) : ∀ (cur : Str), (∀ c ∈ cur, isPyWs c = false) →
    ∀ tok ∈ pySplitWsGo cur s, tok ≠ [] ∧ ∀ c ∈ tok, isPyWs c = false := by
  induction s with
  | nil =>
    intro cur hcur tok htok
    by_cases hc : cur = []
    · simp [pySplitWsGo, hc] at htok
    · simp only [pySplitWsGo, if_neg hc, List.mem_singleton] at htok
      subst htok
      refine ⟨by simp [hc], fun c hc' => hcur c (List.mem_reverse.mp hc')⟩
  | cons c t ih =>
    intro cur hcur tok htok
    by_cases hws : isPyWs c = true
    · by_cases hc : cur = []
      · simp only [pySplitWsGo, hws, if_true, hc, if_pos rfl] at htok
        exact ih [] (by simp) tok htok
      · simp only [pySplitWsGo, hws, if_true, if_neg hc, List.mem_cons] at htok
        rcases htok with rfl | htok
        · exact ⟨by simp [hc], fun x hx => hcur x (List.mem_reverse.mp hx)⟩
        · exact ih [] (by simp) tok htok
    · simp only [pySplitWsGo, hws, if_false] at htok
      refine ih (c :: cur) ?_ tok htok
      intro x hx
      rcases List.mem_cons.mp hx with rfl | hx
      · exact Bool.eq_false_iff.mpr hws
      · exact hcur x hx

theorem vttSettingsTokens_wsfree (place : Bool) (s : Str) :
    ∀ tok ∈ vttSettingsTokens place s, tok ≠ [] ∧ ∀ c ∈ tok, isPyWs c = false := by
  intro tok htok
  simp only [vttSettingsTokens, List.mem_append, List.mem_filter, List.mem_singleton] at htok
  rcases htok with ⟨hmem, _⟩ | rfl
  · by_cases hs : s = []
    · simp [hs] at hmem
    · rw [if_neg hs] at hmem
      exact pySplitWsGo_tokens s [] (by simp) tok hmem
  · cases place <;> exact ⟨by decide, by decide⟩

theorem vttSettingsTokens_ne_nil (place : Bool) (s : Str) :
    vttSettingsTokens place s ≠ [] := by
  simp [vttSettingsTokens]

theorem vttSettingsTokens_idem (place : Bool) (s : Str) :
    vttSettingsTokens place (List.intercalate [' '] (vttSettingsTokens place s)) =
      vttSettingsTokens place s := by
  have hsplit := pySplitWs_intercalate _ (vttSettingsTokens_wsfree place s)
  by_cases hnil : List.intercalate [' '] (vttSettingsTokens place s) = []
  · exfalso
    rw [hnil] at hsplit
    exact vttSettingsTokens_ne_nil place s (by simpa [pySplitWs, pySplitWsGo] using hsplit.symm)
  · conv_lhs => rw [vttSettingsTokens]
    rw [if_neg hnil, hsplit]
    conv_lhs => rw [vttSettingsTokens]
    rw [List.filter_append, List.filter_filter]
    have hnew : (fun tok => !List.isPrefixOf "line:".data tok)
        (if place then "line:0".data else "line:90".data) = false := by
      cases place <;> decide
    simp [hnew]
    simp [vttSettingsTokens]

theorem move_top_an8Block_fixed (t : Str) :
    move_ass_line_to_top (an8Block ++ t) = an8Block ++ t := by
  have h1 : ['\x7b'].isPrefixOf (an8Block ++ t) = true := by
    simp [an8Block, List.isPrefixOf]
  have h2 : containsSub an8Seq (an8Block ++ t) = true := by
    simp [an8Block, an8Seq, containsSub, List.isPrefixOf]
  simp [move_ass_line_to_top, h1, h2]

theorem move_bottom_an2Block_fixed (t : Str) :
    move_ass_line_to_bottom (an2Block ++ t) = an2Block ++ t := by
  have h1 : ['\x7b'].isPrefixOf (an2Block ++ t) = true := by
    simp [an2Block, List.isPrefixOf]
  have h2 : containsSub an2Seq (an2Block ++ t) = true := by
    simp [an2Block, an2Seq, containsSub, List.isPrefixOf]
  simp [move_ass_line_to_bottom, h1, h2]

theorem lstrip_block_append (blk x : Str) (hb : blk = an8Block ∨ blk = an2Block) :
    lstrip (blk ++ x) = blk ++ x := by
  rcases hb with rfl | rfl <;>
    simp [an8Block, an2Block, lstrip, List.dropWhile, isPyWs]

theorem pyStrip_block_tagged (blk ln : Str) (hb : blk = an8Block ∨ blk = an2Block) :
    ['\x7b', '\\', 'a', 'n'].isPrefixOf (pyStrip (blk ++ ln)) = true := by
  have hdrop : (blk.reverse).dropWhile isPyWs = blk.reverse := by
    rcases hb with rfl | rfl <;> decide
  unfold pyStrip rstrip
  rw [List.reverse_append, List.dropWhile_append, hdrop]
  by_cases hempty : ((ln.reverse).dropWhile isPyWs).isEmpty = true
  · rw [if_pos hempty]
    rw [List.reverse_reverse]
    rcases hb with rfl | rfl <;>
      simp [an8Block, an2Block, lstrip, List.dropWhile, isPyWs, List.isPrefixOf]
  · rw [if_neg hempty]
    rw [List.reverse_append, List.reverse_reverse]
    rw [lstrip_block_append blk _ hb]
    rcases hb with rfl | rfl <;> simp [an8Block, an2Block, List.isPrefixOf]

/-- C4 counterexample: the whole-file ASS Top rewrite is not idempotent as a
string function: on an Events section whose dialogue line is followed by a
blank line, the first pass leaves a trailing newline that the second pass
removes, so applying the rewrite twice differs from applying it once. -/
theorem c4_counterexample :
    reposition_ass_ssa
        (reposition_ass_ssa
          ("[Events]\nDialogue: 0,0:00:00.00,0:00:01.00,Default,,0,0,0,,Hi\n\n".data) true) true ≠
      reposition_ass_ssa
        ("[Events]\nDialogue: 0,0:00:00.00,0:00:01.00,Default,,0,0,0,,Hi\n\n".data) true := by
  decide

/-- C4 amended: directive injection is idempotent at the cue level — the ASS
override injection (`move_ass_line_to_top`/`..._to_bottom`), the SRT line
injection, and the VTT cue-settings token rewrite all yield the same result
when applied twice — but the whole-file ASS/VTT string rewriters are not
byte-idempotent (trailing-newline and blank-separator normalization differs
between passes, as the counterexample shows). -/
theorem c4_amended :
    (∀ t : Str, move_ass_line_to_top (move_ass_line_to_top t) = move_ass_line_to_top t) ∧
    (∀ t : Str, move_ass_line_to_bottom (move_ass_line_to_bottom t) = move_ass_line_to_bottom t) ∧
    (∀ (place : Bool) (ln : Str),
      srt_adjust_line place (srt_adjust_line place ln) = srt_adjust_line place ln) ∧
    (∀ (place : Bool) (s : Str),
      vttSettingsTokens place (List.intercalate [' '] (vttSettingsTokens place s)) =
        vttSettingsTokens place s) := by
  refine ⟨fun t => ?_, fun t => ?_, fun place ln => ?_, vttSettingsTokens_idem⟩
  · by_cases h1 : ['\x7b'].isPrefixOf t = true
    · by_cases h2 : containsSub an8Seq t = true
      · simp [move_ass_line_to_top, h1, h2]
      · have he : move_ass_line_to_top t = an8Block ++ t := by
          simp [move_ass_line_to_top, h1, h2]
        rw [he, move_top_an8Block_fixed]
    · have he : move_ass_line_to_top t = an8Block ++ t := by
        simp [move_ass_line_to_top, h1]
      rw [he, move_top_an8Block_fixed]
  · by_cases h1 : ['\x7b'].isPrefixOf t = true
    · by_cases h2 : containsSub an2Seq t = true
      · simp [move_ass_line_to_bottom, h1, h2]
      · have he : move_ass_line_to_bottom t = an2Block ++ t := by
          simp [move_ass_line_to_bottom, h1, h2]
        rw [he, move_bottom_an2Block_fixed]
    · have he : move_ass_line_to_bottom t = an2Block ++ t := by
        simp [move_ass_line_to_bottom, h1]
      rw [he, move_bottom_an2Block_fixed]
  · by_cases h1 : ['\x7b', '\\', 'a', 'n'].isPrefixOf (pyStrip ln) = true
    · simp [srt_adjust_line, h1]
    · have he : srt_adjust_line place ln = (if place then an8Block else an2Block) ++ ln := by
        simp [srt_adjust_line, h1]
      rw [he]
      have htag := pyStrip_block_tagged (if place then an8Block else an2Block) ln
        (by cases place <;> simp)
      simp [srt_adjust_line, htag]

/-- C6 counterexample: inside `[Events]`, a well-formed `Comment:` event line
is re-emitted with the keyword `Dialogue:` — the event kind is not
preserved by the rewriter. -/
theorem c6_counterexample :
    reposition_ass_ssa
        ("[Events]\nComment: 0,0:00:01.00,0:00:02.00,Default,,0,0,0,,Hello".data) true =
      "[Events]\nDialogue: 0,0:00:01.00,0:00:02.00,Default,,0,0,0,,".data ++
        an8Block ++ "Hello".data ∧
    reposition_ass_ssa
        ("[Events]\nComment: 0,0:00:01.00,0:00:02.00,Default,,0,0,0,,Hello".data) true ≠
      "[Events]\nComment: 0,0:00:01.00,0:00:02.00,Default,,0,0,0,,".data ++
        an8Block ++ "Hello".data := by
  decide

/-- C6 amended: inside Events, a `(Dialogue|Comment):` line with 10 fields is
re-emitted with the FIXED keyword `Dialogue` followed by one space (so
`Comment` events become `Dialogue` events and whitespace after the keyword
is normalized), with the 9 positional fields unchanged and only the text
field rewritten; lines not matching the event pattern, event lines with
fewer than 10 fields, and (when no `[Events]` header occurs) all lines
outside Events pass through verbatim. -/
theorem c6_amended :
    (∀ (place : Bool) (line : Str) (kd : Bool) (rest : Str),
      matchAssEvent line = some (kd, rest) →
      (splitAssFields 9 rest).length ≥ 10 →
      assRewriteEventLine place line =
        "Dialogue: ".data ++ List.intercalate [','] (splitAssFields 9 rest).dropLast ++
          ',' :: (if place then move_ass_line_to_top ((splitAssFields 9 rest).getLastD [])
                  else move_ass_line_to_bottom ((splitAssFields 9 rest).getLastD []))) ∧
    (∀ (place : Bool) (line : Str), matchAssEvent line = none →
      assRewriteEventLine place line = line) ∧
    (∀ (place : Bool) (line : Str) (kd : Bool) (rest : Str),
      matchAssEvent line = some (kd, rest) →
      (splitAssFields 9 rest).length < 10 →
      assRewriteEventLine place line = line) ∧
    (∀ (place : Bool) (lines : List Str), (∀ l ∈ lines, isEventsHeader l = false) →
      assGo place false lines = lines) := by
  refine ⟨fun place line kd rest hm hlen => ?_, fun place line hm => ?_,
    fun place line kd rest hm hlen => ?_, fun place lines h => ?_⟩
  · simp [assRewriteEventLine, hm, hlen]
  · simp [assRewriteEventLine, hm]
  · simp [assRewriteEventLine, hm, Nat.not_le.mpr hlen]
  · induction lines with
    | nil => simp [assGo]
    | cons l ls ih =>
      have hl := h l (List.mem_cons_self _ _)
      have hls := fun x hx => h x (List.mem_cons_of_mem _ hx)
      simp [assGo, hl, ih hls]

/-- C6 witness: the amended re-emission at the concrete Comment event line,
whose output keyword is `Dialogue`. -/
theorem c6_amended_witness :
    (matchAssEvent ("Comment: 0,0:00:01.00,0:00:02.00,Default,,0,0,0,,Hello".data) =
      some (false, "0,0:00:01.00,0:00:02.00,Default,,0,0,0,,Hello".data) ∧
     (splitAssFields 9 ("0,0:00:01.00,0:00:02.00,Default,,0,0,0,,Hello".data)).length ≥ 10) ∧
    assRewriteEventLine true ("Comment: 0,0:00:01.00,0:00:02.00,Default,,0,0,0,,Hello".data) =
      "Dialogue: ".data ++
        List.intercalate [',']
          (splitAssFields 9 ("0,0:00:01.00,0:00:02.00,Default,,0,0,0,,Hello".data)).dropLast ++
        ',' :: (if true then
          move_ass_line_to_top
            ((splitAssFields 9 ("0,0:00:01.00,0:00:02.00,Default,,0,0,0,,Hello".data)).getLastD [])
          else
          move_ass_line_to_bottom
            ((splitAssFields 9 ("0,0:00:01.00,0:00:02.00,Default,,0,0,0,,Hello".data)).getLastD [])) :=
  ⟨⟨by decide, by decide⟩, c6_amended.1 true _ false _ (by decide) (by decide)⟩

/-- C9: `process_subtitle` fails with `UnsupportedFormat` (producing no
output) for every path whose lowercased extension is not one of `.srt`,
`.ass`, `.ssa`, `.vtt`, and for each recognized extension it dispatches to
that format's parse/rewrite/serialize pipeline built from the single
per-file placement decision. -/
theorem c9_dispatch :
    (∀ video path content : Str,
      toLowerStr (splitext_ext path) ∉
        [".srt".data, ".ass".data, ".ssa".data, ".vtt".data] →
      process_subtitle video path content = .error .unsupportedFormat) ∧
    (∀ video path content : Str, toLowerStr (splitext_ext path) = ".srt".data →
      process_subtitle video path content = (parse_srt content).map (fun items =>
        format_srt (srt_adjust_items (decide_subtitle_placement video) items))) ∧
    (∀ video path content : Str,
      toLowerStr (splitext_ext path) = ".ass".data ∨
        toLowerStr (splitext_ext path) = ".ssa".data →
      process_subtitle video path content =
        .ok (reposition_ass_ssa content (decide_subtitle_placement video))) ∧
    (∀ video path content : Str, toLowerStr (splitext_ext path) = ".vtt".data →
      process_subtitle video path content =
        .ok (reposition_vtt content (decide_subtitle_placement video))) := by
  refine ⟨fun video path content h => ?_, fun video path content h => ?_,
    fun video path content h => ?_, fun video path content h => ?_⟩
  · simp only [List.mem_cons, List.mem_singleton, not_or] at h
    unfold process_subtitle
    rw [if_neg h.1, if_neg (by tauto), if_neg h.2.2.2.1]
  · unfold process_subtitle
    rw [if_pos h]
  · have hne : toLowerStr (splitext_ext path) ≠ ".srt".data := by
      rcases h with h | h <;> rw [h] <;> decide
    unfold process_subtitle
    rw [if_neg hne, if_pos h]
  · have hne : toLowerStr (splitext_ext path) ≠ ".srt".data := by rw [h]; decide
    have hne2 : ¬(toLowerStr (splitext_ext path) = ".ass".data ∨
        toLowerStr (splitext_ext path) = ".ssa".data) := by
      rw [h]; rintro (hc | hc) <;> exact absurd hc (by decide)
    unfold process_subtitle
    rw [if_neg hne, if_neg hne2, if_pos h]

/-- C9 witness: a `.txt` input fails with `UnsupportedFormat` and a `.srt`
input dispatches to the SRT pipeline. -/
theorem c9_dispatch_witness :
    (toLowerStr (splitext_ext "a.txt".data) ∉
      [".srt".data, ".ass".data, ".ssa".data, ".vtt".data]) ∧
    process_subtitle "v.mp4".data "a.txt".data "hello".data = .error .unsupportedFormat :=
  ⟨by decide, c9_dispatch.1 "v.mp4".data "a.txt".data "hello".data (by decide)⟩

/-- Whether a timecode fragment fails the claim's test: it does not split
into exactly 4 numeric parts on the delimiters `:` `,` `.`. -/
def fragment_bad (f : Str) : Bool :=
  let parts := splitTC (pyStrip f)
  !(parts.length == 4 && parts.all (fun p => (pyInt? p).isSome))

/-- The candidate timing line of an SRT block, as `parse_srt` determines it:
the second line when the first parses as an integer index, the first line
otherwise (`none` when that line does not exist). -/
def srt_candidate_timing (block : Str) : Option Str :=
  match (splitlines block).map stripBom with
  | [] => none
  | l0 :: rest =>
    match pyInt? (pyStrip l0) with
    | some _ => rest.head?
    | none => some l0

/-- The claim's error condition on one block: the candidate timing line
exists, contains `-->`, and one of its two fragments is bad. -/
def srt_block_bad (block : Str) : Bool :=
  match srt_candidate_timing block with
  | none => false
  | some tl =>
    let timing := pyStrip tl
    if containsSub "-->".data timing then
      match splitFirst "-->".data timing with
      | some (a, b) => fragment_bad (pyStrip a) || fragment_bad (pyStrip b)
      | none => false
    else false

theorem parse_timecode_fragment_cases (f : Str) :
    (fragment_bad f = true ∧ parse_timecode_fragment f = .error .malformedTimecode) ∨
    (fragment_bad f = false ∧ ∃ tc, parse_timecode_fragment f = .ok tc) := by
  unfold parse_timecode_fragment fragment_bad
  match hp : splitTC (pyStrip f) with
  | [] => left; simp
  | [a] => left; simp
  | [a, b] => left; simp
  | [a, b, c] => left; simp
  | [a, b, c, d] =>
    match ha : pyInt? a, hb : pyInt? b, hc : pyInt? c, hd : pyInt? d with
    | some x, some y, some z, some w => right; simp [ha, hb, hc, hd]
    | none, _, _, _ => left; simp [ha]
    | some x, none, _, _ => left; simp [ha, hb]
    | some x, some y, none, _ => left; simp [ha, hb, hc]
    | some x, some y, some z, none => left; simp [ha, hb, hc, hd]
  | a :: b :: c :: d :: e :: t =>
    left
    constructor
    · simp only [List.length_cons, List.all_cons, Bool.not_eq_eq_eq_not, Bool.not_true,
        Bool.and_eq_false_iff]
      left
      simp [beq_iff_eq]
    · rfl

theorem parse_srt_block_cases (n : Nat) (blk : Str) :
    (srt_block_bad blk = true ∧ parse_srt_block n blk = .error .malformedTimecode) ∨
    (srt_block_bad blk = false ∧ ∃ o, parse_srt_block n blk = .ok o) := by
  unfold parse_srt_block srt_block_bad srt_candidate_timing
  match hls : (splitlines blk).map stripBom with
  | [] => right; simp
  | l0 :: rest =>
    match hpi : pyInt? (pyStrip l0) with
    | some v =>
      simp only [hpi]
      match rest with
      | [] => right; simp
      | tl :: txt =>
        simp only [List.head?_cons, Option.some.injEq]
        by_cases harrow : containsSub "-->".data (pyStrip tl) = true
        · rw [if_pos harrow, if_pos harrow]
          match hsp : splitFirst "-->".data (pyStrip tl) with
          | none => right; simp
          | some (a, b) =>
            rcases parse_timecode_fragment_cases (pyStrip a) with ⟨hfa, hea⟩ | ⟨hfa, tca, hoa⟩
            · left; simp [hea, hfa]
            · rcases parse_timecode_fragment_cases (pyStrip b) with ⟨hfb, heb⟩ | ⟨hfb, tcb, hob⟩
              · left; simp [hoa, heb, hfa, hfb]
              · right; simp [hoa, hob, hfa, hfb]
        · rw [if_neg harrow, if_neg harrow]
          right; simp
    | none =>
      simp only [hpi]
      by_cases harrow : containsSub "-->".data (pyStrip l0) = true
      · rw [if_pos harrow, if_pos harrow]
        match hsp : splitFirst "-->".data (pyStrip l0) with
        | none => right; simp
        | some (a, b) =>
          rcases parse_timecode_fragment_cases (pyStrip a) with ⟨hfa, hea⟩ | ⟨hfa, tca, hoa⟩
          · left; simp [hea, hfa]
          · rcases parse_timecode_fragment_cases (pyStrip b) with ⟨hfb, heb⟩ | ⟨hfb, tcb, hob⟩
            · left; simp [hoa, heb, hfa, hfb]
            · right; simp [hoa, hob, hfa, hfb]
      · rw [if_neg harrow, if_neg harrow]
        right; simp

theorem parse_srt_go_cases (bs : List Str) : ∀ acc : List SRTItem,
    (parse_srt_go acc bs = .error .malformedTimecode ↔
      ∃ b ∈ bs, srt_block_bad b = true) := by
  induction bs with
  | nil => intro acc; simp [parse_srt_go]
  | cons b bs ih =>
    intro acc
    unfold parse_srt_go
    rcases parse_srt_block_cases acc.length b with ⟨hbad, herr⟩ | ⟨hok, o, ho⟩
    · rw [herr]
      simp [hbad]
    · rw [ho]
      cases o with
      | none => simp [ih acc, hok]
      | some it => simp [ih (it :: acc), hok]

theorem parse_srt_go_ok (bs : List Str) : ∀ acc : List SRTItem,
    (∀ b ∈ bs, srt_block_bad b = false) → ∃ items, parse_srt_go acc bs = .ok items := by
  induction bs with
  | nil => intro acc _; exact ⟨acc.reverse, rfl⟩
  | cons b bs ih =>
    intro acc h
    unfold parse_srt_go
    rcases parse_srt_block_cases acc.length b with ⟨hbad, _⟩ | ⟨_, o, ho⟩
    · exact absurd hbad (by simp [h b (List.mem_cons_self _ _)])
    · rw [ho]
      cases o with
      | none => exact ih acc (fun x hx => h x (List.mem_cons_of_mem _ hx))
      | some it => exact ih (it :: acc) (fun x hx => h x (List.mem_cons_of_mem _ hx))

/-- C8: the SRT parser silently skips (no error, no item) every block whose
candidate timing line lacks `-->`, and it fails with `MalformedTimecode`
exactly when some block's candidate timing line contains `-->` but one of
the two fragments does not split into exactly 4 numeric parts on `:,.`
(when no block is bad the parse yields a result). -/
theorem c8_srt_parser_errors :
    (∀ (n : Nat) (block tl : Str), srt_candidate_timing block = some tl →
      containsSub "-->".data (pyStrip tl) = false →
      parse_srt_block n block = .ok none) ∧
    (∀ content : Str,
      parse_srt content = .error RepoError.malformedTimecode ↔
        ∃ b ∈ srtBlocks content, srt_block_bad b = true) ∧
    (∀ content : Str, (∀ b ∈ srtBlocks content, srt_block_bad b = false) →
      ∃ items, parse_srt content = .ok items) := by
  refine ⟨fun n block tl hm harrow => ?_, fun content => parse_srt_go_cases _ [],
    fun content h => parse_srt_go_ok _ [] h⟩
  unfold parse_srt_block
  unfold srt_candidate_timing at hm
  match hls : (splitlines block).map stripBom with
  | [] => simp
  | l0 :: rest =>
    rw [hls] at hm
    match hpi : pyInt? (pyStrip l0) with
    | some v =>
      simp only [hpi] at hm
      match rest with
      | [] => simp at hm
      | tl' :: txt =>
        simp only [List.head?_cons, Option.some.injEq] at hm
        subst hm
        simp [hpi, harrow]
    | none =>
      simp only [hpi, Option.some.injEq] at hm
      subst hm
      simp [hpi, harrow]

/-- C8 witness: a block with no `-->` on its candidate timing line is
skipped without error. -/
theorem c8_srt_parser_errors_witness :
    (srt_candidate_timing "hello\nworld".data = some "hello".data ∧
     containsSub "-->".data (pyStrip "hello".data) = false) ∧
    parse_srt_block 0 "hello\nworld".data = .ok none := by
  refine ⟨⟨by decide, by decide⟩, c8_srt_parser_errors.1 0 _ "hello".data (by decide) (by decide)⟩
